import Mathlib

/-!
# Verification of the master-blog-api post store

Shallow embedding of `src/backend/backend_app.py`: an in-memory list of
posts with list/create/update/delete/search operations.  Request bodies
are modelled as association lists from field names to string values
(Python JSON dicts have unique keys); query parameters are `Option String`
(`none` when the parameter is absent).  HTTP responses are modelled by the
`Blog.Response` type carrying the status code.
-/

namespace Blog

/-- A blog post: the dicts `{"id": ..., "title": ..., "content": ...}` of the source. -/
structure Post where
  id : Int
  title : String
  content : String
deriving DecidableEq, Repr

/-- The seeded collection `POSTS` (backend_app.py lines 7-10). -/
def POSTS : List Post :=
  [{ id := 1, title := "First post", content := "This is the first post." },
   { id := 2, title := "Second post", content := "This is the second post." }]

/-- Request bodies: JSON objects with string values, as association lists. -/
abbrev Body := List (String × String)

/-- `get_id` (lines 12-27): `max(post["id"] for post in POSTS) + 1`,
with the `ValueError` fallback to `0` on an empty collection. -/
def get_id (posts : List Post) : Int :=
  match posts.map Post.id with
  | [] => 0
  | i :: is => is.foldl max i + 1

/-- Python `field in request_body`: dict key membership. -/
def hasKey (body : Body) (k : String) : Bool :=
  body.any (fun kv => kv.1 == k)

/-- Python `request_body[k]`: dict access.  The `""` branch corresponds to a
`KeyError` in Python and is only reached on keys absent from the body. -/
def getBodyField (body : Body) (k : String) : String :=
  match body.lookup k with
  | some v => v
  | none => ""

/-- `validate_required_fields` (lines 30-56): collects the missing fields, and
returns the joined error message (`none` when all fields are present).
`n == 1` gets the dedicated `"<field> is required!"` message. -/
def validate_required_fields (body : Body) (required : List String) : Option String :=
  match required.filter (fun f => !(hasKey body f)) with
  | [] => none
  | [f] => some (f ++ " is required!")
  | missing => some (String.intercalate ", " missing ++ " fields are required!")

/-- HTTP responses of the app: a list of posts, a single post, a message
object, or an error object, each with its status code. -/
inductive Response where
  | postsOk (l : List Post) (status : Nat)
  | postOk (p : Post) (status : Nat)
  | msg (m : String) (status : Nat)
  | err (e : String) (status : Nat)
deriving DecidableEq, Repr

/-- Python truthiness of `request.args.get(...)`: `None` and `""` are falsy. -/
def truthy : Option String → Bool
  | none => false
  | some s => !(s == "")

/-- `post[sort_field]` for the two validated sort fields.  Any other key would
be a `KeyError` in Python; it is unreachable after the validation guard. -/
def getPostField (p : Post) (f : String) : String :=
  if f == "title" then p.title
  else if f == "content" then p.content
  else ""

/-- The comparison passed to `sorted(POSTS, key=..., reverse=...)`:
Python's stable sort with `reverse=True` keeps equal keys in original order,
which coincides with a stable merge sort under the flipped comparison. -/
def sortLE (f : String) (desc : Bool) (a b : Post) : Bool :=
  if desc then decide (getPostField b f ≤ getPostField a f)
  else decide (getPostField a f ≤ getPostField b f)

/-- `handle_posts`, GET branch (lines 99-118): validate `sort` and
`direction` (under Python truthiness), then return a sorted copy or the
collection in insertion order. -/
def handle_posts_get (posts : List Post) (sort_field sort_direction : Option String) :
    List Post × Response :=
  if truthy sort_field &&
      !(sort_field.getD "" == "title" || sort_field.getD "" == "content") then
    (posts, .err "Invalid sort field. Must be \x27title\x27 or \x27content\x27." 400)
  else if truthy sort_direction &&
      !(sort_direction.getD "" == "asc" || sort_direction.getD "" == "desc") then
    (posts, .err "Invalid sort direction. Must be \x27asc\x27 or \x27desc\x27." 400)
  else if truthy sort_field then
    (posts,
      .postsOk
        (posts.mergeSort
          (sortLE (sort_field.getD "") (sort_direction.getD "" == "desc"))) 200)
  else (posts, .postsOk posts 200)

/-- `handle_posts`, POST branch (lines 86-97): validate required fields, then
append the new post with `id := get_id()`. -/
def handle_posts_post (posts : List Post) (body : Body) : List Post × Response :=
  match validate_required_fields body ["title", "content"] with
  | some e => (posts, .err e 400)
  | none =>
    let new_post : Post :=
      { id := get_id posts,
        title := getBodyField body "title",
        content := getBodyField body "content" }
    (posts ++ [new_post], .postOk new_post 201)

/-- The not-found error of `handle_post` (line 156). -/
def notFoundMsg (post_id : Int) : String :=
  "Post with id " ++ toString post_id ++ " doesn\x27t exist."

/-- The `valid_updated_fields` filtering plus `selected_post.update(...)` of
the PUT branch (lines 146-150): only the `title` and `content` keys of the
body are applied; every other key, and the `id`, is untouched. -/
def applyUpdate (p : Post) (body : Body) : Post :=
  { id := p.id,
    title := match body.lookup "title" with
             | some v => v
             | none => p.title,
    content := match body.lookup "content" with
               | some v => v
               | none => p.content }

/-- `handle_post`, PUT branch (lines 142-151, 156): the first post whose `id`
matches is updated in place; otherwise the 404 error is returned. -/
def handle_put : List Post → Int → Body → List Post × Response
  | [], post_id, _ => ([], .err (notFoundMsg post_id) 404)
  | p :: ps, post_id, body =>
    if p.id == post_id then
      (applyUpdate p body :: ps, .postOk (applyUpdate p body) 200)
    else
      let r := handle_put ps post_id body
      (p :: r.1, r.2)

/-- `handle_post`, DELETE branch (lines 142-144, 152-156): `next(...)` finds
the first post whose `id` matches and `POSTS.remove` removes exactly that
occurrence; otherwise the 404 error is returned. -/
def handle_delete : List Post → Int → List Post × Response
  | [], post_id => ([], .err (notFoundMsg post_id) 404)
  | p :: ps, post_id =>
    if p.id == post_id then
      (ps, .msg ("Post with id " ++ toString post_id ++ " has been deleted successfully.") 200)
    else
      let r := handle_delete ps post_id
      (p :: r.1, r.2)

/-- Python list `charsStartWith hay needle`: `hay` starts with `needle`. -/
def charsStartWith : List Char → List Char → Bool
  | _, [] => true
  | [], _ :: _ => false
  | h :: hs, n :: ns => h == n && charsStartWith hs ns

/-- Python `needle in hay` on strings, on the underlying character lists. -/
def charsContain : List Char → List Char → Bool
  | [], needle => needle.isEmpty
  | h :: hs, needle => charsStartWith (h :: hs) needle || charsContain hs needle

/-- Python `needle in hay` substring test on strings. -/
def strContains (hay needle : String) : Bool :=
  charsContain hay.data needle.data

/-- Python `s.lower()`: per-character lowercasing. -/
def strLower (s : String) : String :=
  ⟨s.data.map Char.toLower⟩

/-- The match condition of `search_posts` (lines 182-183), with Python's
`and`/`or` precedence: `(title is not None and title.lower() in
post["title"].lower()) or (content is not None and ...)`. -/
def matches_search (title content : Option String) (p : Post) : Bool :=
  (match title with
   | some t => strContains (strLower p.title) (strLower t)
   | none => false) ||
  (match content with
   | some c => strContains (strLower p.content) (strLower c)
   | none => false)

/-- `search_posts` (lines 159-185): the accumulation loop over `POSTS`,
which is a filter by the match condition. -/
def search_posts (posts : List Post) (title content : Option String) : List Post :=
  posts.filter (matches_search title content)

/-- The app's request surface. -/
inductive Request where
  | list (sort direction : Option String)
  | create (body : Body)
  | update (post_id : Int) (body : Body)
  | delete (post_id : Int)
  | search (title content : Option String)

/-- One request handled against the current collection: the new collection
and the response. -/
def step (posts : List Post) : Request → List Post × Response
  | .list sf dir => handle_posts_get posts sf dir
  | .create body => handle_posts_post posts body
  | .update post_id body => handle_put posts post_id body
  | .delete post_id => handle_delete posts post_id
  | .search t c => (posts, .postsOk (search_posts posts t c) 200)

/-- States reachable from the seeded collection by any request sequence. -/
inductive Reachable : List Post → Prop
  | seed : Reachable POSTS
  | tr (s : List Post) (r : Request) : Reachable s → Reachable (step s r).1

/-! ## Supporting lemmas -/

theorem foldl_max_le (is : List Int) : ∀ (i j : Int), j ∈ i :: is → j ≤ is.foldl max i := by
  induction is with
  | nil =>
    intro i j h
    simp only [List.mem_singleton] at h
    simp [h]
  | cons a is ih =>
    intro i j h
    simp only [List.foldl_cons]
    rcases List.mem_cons.mp h with h1 | h2
    · subst h1; exact le_trans (le_max_left j a) (ih (max j a) (max j a) (List.mem_cons_self _ _))
    · rcases List.mem_cons.mp h2 with h3 | h4
      · subst h3; exact le_trans (le_max_right i j) (ih (max i j) (max i j) (List.mem_cons_self _ _))
      · exact ih (max i a) j (List.mem_cons_of_mem _ h4)

theorem foldl_max_mem (is : List Int) : ∀ i : Int, is.foldl max i ∈ i :: is := by
  induction is with
  | nil => intro i; simp
  | cons a is ih =>
    intro i
    simp only [List.foldl_cons]
    rcases List.mem_cons.mp (ih (max i a)) with h1 | h2
    · rcases max_choice i a with hm | hm
      · rw [h1, hm]; exact List.mem_cons_self _ _
      · rw [h1, hm]; exact List.mem_cons_of_mem _ (List.mem_cons_self _ _)
    · exact List.mem_cons_of_mem _ (List.mem_cons_of_mem _ h2)

/-- Every id in the collection is strictly below the freshly generated id. -/
theorem mem_id_lt_get_id : ∀ (posts : List Post), ∀ p ∈ posts, p.id < get_id posts := by
  intro posts p hp
  cases posts with
  | nil => cases hp
  | cons q qs =>
    have hm : p.id ∈ q.id :: qs.map Post.id := by
      simpa using List.mem_map_of_mem Post.id hp
    have := foldl_max_le (qs.map Post.id) q.id p.id hm
    simp only [get_id, List.map_cons]
    omega

/-- On a nonempty collection `get_id` is one more than an attained maximum. -/
theorem get_id_eq_max_add_one (posts : List Post) (h : posts ≠ []) :
    ∃ m, m ∈ posts.map Post.id ∧ (∀ j ∈ posts.map Post.id, j ≤ m) ∧
      get_id posts = m + 1 := by
  cases posts with
  | nil => exact absurd rfl h
  | cons q qs =>
    refine ⟨(qs.map Post.id).foldl max q.id, ?_, ?_, ?_⟩
    · simpa using foldl_max_mem (qs.map Post.id) q.id
    · intro j hj
      exact foldl_max_le (qs.map Post.id) q.id j (by simpa using hj)
    · simp [get_id]

theorem charsStartWith_iff : ∀ (hay needle : List Char),
    charsStartWith hay needle = true ↔ ∃ rest, hay = needle ++ rest := by
  intro hay needle
  induction needle generalizing hay with
  | nil =>
    constructor
    · intro _; exact ⟨hay, rfl⟩
    · intro _; cases hay <;> rfl
  | cons n ns ih =>
    cases hay with
    | nil =>
      simp only [charsStartWith, List.cons_append]
      constructor
      · intro h; cases h
      · rintro ⟨rest, h⟩; cases h
    | cons h hs =>
      simp only [charsStartWith, Bool.and_eq_true, beq_iff_eq, ih hs, List.cons_append]
      constructor
      · rintro ⟨rfl, rest, rfl⟩; exact ⟨rest, rfl⟩
      · rintro ⟨rest, heq⟩
        injection heq with h1 h2
        exact ⟨h1, rest, h2⟩

theorem charsContain_iff : ∀ (hay needle : List Char),
    charsContain hay needle = true ↔ ∃ a b, hay = a ++ needle ++ b := by
  intro hay needle
  induction hay with
  | nil =>
    simp only [charsContain, List.isEmpty_eq_true]
    constructor
    · rintro rfl; exact ⟨[], [], rfl⟩
    · rintro ⟨a, b, heq⟩
      rcases List.append_eq_nil.mp heq.symm with ⟨h1, h2⟩
      exact (List.append_eq_nil.mp h1).2
  | cons h hs ih =>
    simp only [charsContain, Bool.or_eq_true, charsStartWith_iff, ih]
    constructor
    · rintro (⟨rest, heq⟩ | ⟨a, b, heq⟩)
      · exact ⟨[], rest, by simpa using heq⟩
      · exact ⟨h :: a, b, by simp [heq]⟩
    · rintro ⟨a, b, heq⟩
      cases a with
      | nil => exact Or.inl ⟨b, by simpa using heq⟩
      | cons x xs =>
        simp only [List.cons_append] at heq
        injection heq with h1 h2
        exact Or.inr ⟨xs, b, h2⟩

/-- `strContains` decides the substring relation on the character lists. -/
theorem strContains_iff (hay needle : String) :
    strContains hay needle = true ↔ ∃ a b, hay.data = a ++ needle.data ++ b :=
  charsContain_iff hay.data needle.data

theorem charsContain_nil (hay : List Char) : charsContain hay [] = true := by
  cases hay with
  | nil => rfl
  | cons h hs => simp [charsContain, charsStartWith]

/-- The GET handler never mutates the collection. -/
theorem handle_posts_get_fst (posts : List Post) (sf dir : Option String) :
    (handle_posts_get posts sf dir).1 = posts := by
  unfold handle_posts_get
  repeat' split
  all_goals rfl

/-- The PUT handler preserves the sequence of ids (in order). -/
theorem handle_put_map_id (posts : List Post) (pid : Int) (body : Body) :
    ((handle_put posts pid body).1).map Post.id = posts.map Post.id := by
  induction posts with
  | nil => rfl
  | cons p ps ih =>
    simp only [handle_put]
    split
    · simp [applyUpdate]
    · simp [ih]

/-- The DELETE handler leaves a sublist of the collection. -/
theorem handle_delete_fst_sublist (posts : List Post) (pid : Int) :
    ((handle_delete posts pid).1).Sublist posts := by
  induction posts with
  | nil => simp [handle_delete]
  | cons p ps ih =>
    simp only [handle_delete]
    split
    · exact List.sublist_cons_self p ps
    · exact List.Sublist.cons₂ p ih

/-- The freshly generated id does not occur in the collection. -/
theorem get_id_not_mem (posts : List Post) : get_id posts ∉ posts.map Post.id := by
  intro hmem
  rcases List.mem_map.mp hmem with ⟨p, hp, hid⟩
  have := mem_id_lt_get_id posts p hp
  omega

/-! ## Claims -/

/-- C1: ID uniqueness invariant — at every state reachable from the seeded
collection by any sequence of list/create/update/delete/search requests, the
`id` values of the posts are pairwise distinct. -/
theorem reachable_ids_nodup (s : List Post) (h : Reachable s) :
    (s.map Post.id).Nodup := by
  induction h with
  | seed => decide
  | tr s r _ ih =>
    cases r with
    | list sf dir =>
      show ((handle_posts_get s sf dir).1.map Post.id).Nodup
      rw [handle_posts_get_fst]; exact ih
    | create body =>
      show ((handle_posts_post s body).1.map Post.id).Nodup
      unfold handle_posts_post
      cases hv : validate_required_fields body ["title", "content"] with
      | some e => simpa using ih
      | none =>
        simp only [List.map_append, List.map_cons, List.map_nil]
        refine List.Nodup.append ih (by simp) ?_
        intro a ha hb
        simp only [List.mem_singleton] at hb
        subst hb
        exact get_id_not_mem s ha
    | update pid body =>
      show ((handle_put s pid body).1.map Post.id).Nodup
      rw [handle_put_map_id]; exact ih
    | delete pid =>
      exact ih.sublist (List.Sublist.map Post.id (handle_delete_fst_sublist s pid))
    | search t c => exact ih

/-- C1 witness: the invariant instantiated at the seeded state. -/
theorem reachable_ids_nodup_witness : ((POSTS).map Post.id).Nodup :=
  reachable_ids_nodup POSTS Reachable.seed

/-- Validation succeeds when both required fields are present. -/
theorem validate_both_present (body : Body)
    (ht : hasKey body "title" = true) (hc : hasKey body "content" = true) :
    validate_required_fields body ["title", "content"] = none := by
  unfold validate_required_fields
  simp [ht, hc]

/-- The POST handler on a body holding both required fields. -/
theorem handle_posts_post_success (posts : List Post) (body : Body)
    (ht : hasKey body "title" = true) (hc : hasKey body "content" = true) :
    handle_posts_post posts body =
      (posts ++ [{ id := get_id posts, title := getBodyField body "title",
                   content := getBodyField body "content" }],
       .postOk { id := get_id posts, title := getBodyField body "title",
                 content := getBodyField body "content" } 201) := by
  unfold handle_posts_post
  rw [validate_both_present body ht hc]

/-- C2: a successful create assigns the new post an id one greater than the
current maximum id (0 on an empty collection), stores the given title and
content, and appends the post at the end, growing the collection by one. -/
theorem create_id_assignment (posts : List Post) (body : Body)
    (ht : hasKey body "title" = true) (hc : hasKey body "content" = true) :
    ∃ p : Post,
      step posts (.create body) = (posts ++ [p], .postOk p 201) ∧
      p.title = getBodyField body "title" ∧
      p.content = getBodyField body "content" ∧
      (posts = [] → p.id = 0) ∧
      (posts ≠ [] → ∃ m, m ∈ posts.map Post.id ∧
        (∀ j ∈ posts.map Post.id, j ≤ m) ∧ p.id = m + 1) ∧
      (posts ++ [p]).length = posts.length + 1 := by
  refine ⟨{ id := get_id posts, title := getBodyField body "title",
            content := getBodyField body "content" },
    handle_posts_post_success posts body ht hc, rfl, rfl, ?_, ?_, by simp⟩
  · rintro rfl; rfl
  · intro h
    exact get_id_eq_max_add_one posts h

/-- C2 witness: creating on the seeded collection appends exactly one post. -/
theorem create_id_assignment_witness :
    ∃ p : Post, step POSTS (.create [("title", "t"), ("content", "c")])
      = (POSTS ++ [p], .postOk p 201) := by
  rcases create_id_assignment POSTS [("title", "t"), ("content", "c")] rfl rfl with
    ⟨p, h, -⟩
  exact ⟨p, h⟩

/-- C3: the max-plus-one scheme reuses ids — after creating a post (id 3 on
the seeded collection), deleting it, and creating again, the new post gets
the same id 3 as the deleted one. -/
theorem id_reuse_after_delete :
    (step POSTS (.create [("title", "a"), ("content", "b")])).2
      = .postOk { id := 3, title := "a", content := "b" } 201 ∧
    (step (step POSTS (.create [("title", "a"), ("content", "b")])).1 (.delete 3)).2
      = .msg "Post with id 3 has been deleted successfully." 200 ∧
    (step (step (step POSTS (.create [("title", "a"), ("content", "b")])).1
        (.delete 3)).1 (.create [("title", "c"), ("content", "d")])).2
      = .postOk { id := 3, title := "c", content := "d" } 201 := by
  refine ⟨rfl, rfl, rfl⟩

/-- C4: create validation — a single missing field is reported alone as
required, two missing fields are reported joined, no post is created on a
validation failure, and no validation error occurs when both are present. -/
theorem create_validation (posts : List Post) (body : Body) :
    (hasKey body "title" = false → hasKey body "content" = true →
      step posts (.create body) = (posts, .err "title is required!" 400)) ∧
    (hasKey body "title" = true → hasKey body "content" = false →
      step posts (.create body) = (posts, .err "content is required!" 400)) ∧
    (hasKey body "title" = false → hasKey body "content" = false →
      step posts (.create body)
        = (posts, .err "title, content fields are required!" 400)) ∧
    (hasKey body "title" = true → hasKey body "content" = true →
      ∃ p, step posts (.create body) = (posts ++ [p], .postOk p 201)) := by
  refine ⟨?_, ?_, ?_, ?_⟩ <;> intro h1 h2
  · show handle_posts_post posts body = _
    unfold handle_posts_post validate_required_fields
    simp [h1, h2]
  · show handle_posts_post posts body = _
    unfold handle_posts_post validate_required_fields
    simp [h1, h2]
  · show handle_posts_post posts body = _
    unfold handle_posts_post validate_required_fields
    simp [h1, h2]
    rfl
  · exact ⟨_, handle_posts_post_success posts body h1 h2⟩

/-- C4 witness: a body holding only `title` is rejected naming `content`. -/
theorem create_validation_witness :
    step ([] : List Post) (.create [("title", "x")])
      = ([], .err "content is required!" 400) :=
  (create_validation [] [("title", "x")]).2.1 rfl rfl

/-- PUT on an id absent from the collection: 404 and no mutation. -/
theorem handle_put_not_found (posts : List Post) (pid : Int) (body : Body)
    (h : ∀ q ∈ posts, q.id ≠ pid) :
    handle_put posts pid body = (posts, .err (notFoundMsg pid) 404) := by
  induction posts with
  | nil => rfl
  | cons p ps ih =>
    have hp : (p.id == pid) = false :=
      beq_eq_false_iff_ne.mpr (h p (List.mem_cons_self _ _))
    simp only [handle_put, hp, Bool.false_eq_true, if_false]
    rw [ih (fun q hq => h q (List.mem_cons_of_mem _ hq))]

/-- PUT updates in place the first post whose id matches. -/
theorem handle_put_found (pid : Int) (body : Body) :
    ∀ (pre : List Post) (p : Post) (suf : List Post),
      (∀ q ∈ pre, q.id ≠ pid) → p.id = pid →
      handle_put (pre ++ p :: suf) pid body =
        (pre ++ applyUpdate p body :: suf, .postOk (applyUpdate p body) 200) := by
  intro pre
  induction pre with
  | nil =>
    intro p suf _ hp
    simp only [List.nil_append, handle_put, beq_iff_eq, hp, if_true]
  | cons q qs ih =>
    intro p suf hpre hp
    have hq : (q.id == pid) = false :=
      beq_eq_false_iff_ne.mpr (hpre q (List.mem_cons_self _ _))
    simp only [List.cons_append, handle_put, hq, Bool.false_eq_true, if_false,
      List.append_eq]
    rw [ih p suf (fun r hr => hpre r (List.mem_cons_of_mem _ hr)) hp]

/-- DELETE on an id absent from the collection: 404 and no mutation. -/
theorem handle_delete_not_found (posts : List Post) (pid : Int)
    (h : ∀ q ∈ posts, q.id ≠ pid) :
    handle_delete posts pid = (posts, .err (notFoundMsg pid) 404) := by
  induction posts with
  | nil => rfl
  | cons p ps ih =>
    have hp : (p.id == pid) = false :=
      beq_eq_false_iff_ne.mpr (h p (List.mem_cons_self _ _))
    simp only [handle_delete, hp, Bool.false_eq_true, if_false]
    rw [ih (fun q hq => h q (List.mem_cons_of_mem _ hq))]

/-- DELETE removes exactly the first post whose id matches. -/
theorem handle_delete_found (pid : Int) :
    ∀ (pre : List Post) (p : Post) (suf : List Post),
      (∀ q ∈ pre, q.id ≠ pid) → p.id = pid →
      handle_delete (pre ++ p :: suf) pid =
        (pre ++ suf,
         .msg ("Post with id " ++ toString pid ++ " has been deleted successfully.") 200) := by
  intro pre
  induction pre with
  | nil =>
    intro p suf _ hp
    simp only [List.nil_append, handle_delete, beq_iff_eq, hp, if_true]
  | cons q qs ih =>
    intro p suf hpre hp
    have hq : (q.id == pid) = false :=
      beq_eq_false_iff_ne.mpr (hpre q (List.mem_cons_self _ _))
    simp only [List.cons_append, handle_delete, hq, Bool.false_eq_true, if_false,
      List.append_eq]
    rw [ih p suf (fun r hr => hpre r (List.mem_cons_of_mem _ hr)) hp]

/-- C5: update partial-field law — on the (first) post with a matching id,
exactly the recognized fields present in the body are applied, absent fields
and the id stay unchanged, unrecognized body fields (including `id`) are
ignored, all other posts are untouched, and the full updated post is
returned; on an absent id the update returns a 404 naming the id and leaves
the collection unchanged. -/
theorem update_partial_field_law (posts : List Post) (pid : Int) (body : Body) :
    ((∀ q ∈ posts, q.id ≠ pid) →
      step posts (.update pid body) = (posts, .err (notFoundMsg pid) 404)) ∧
    (∀ pre p suf, posts = pre ++ p :: suf →
      (∀ q ∈ pre, q.id ≠ pid) → p.id = pid →
      step posts (.update pid body)
        = (pre ++ applyUpdate p body :: suf, .postOk (applyUpdate p body) 200)) ∧
    (∀ p : Post, (applyUpdate p body).id = p.id) ∧
    (∀ p : Post, body.lookup "title" = none → (applyUpdate p body).title = p.title) ∧
    (∀ (p : Post) (v : String), body.lookup "title" = some v →
      (applyUpdate p body).title = v) ∧
    (∀ p : Post, body.lookup "content" = none →
      (applyUpdate p body).content = p.content) ∧
    (∀ (p : Post) (v : String), body.lookup "content" = some v →
      (applyUpdate p body).content = v) ∧
    (∀ (p : Post) (k v : String), k ≠ "title" → k ≠ "content" →
      applyUpdate p ((k, v) :: body) = applyUpdate p body) := by
  refine ⟨?_, ?_, ?_, ?_, ?_, ?_, ?_, ?_⟩
  · exact handle_put_not_found posts pid body
  · rintro pre p suf rfl hpre hp
    exact handle_put_found pid body pre p suf hpre hp
  · intro p; rfl
  · intro p h; simp [applyUpdate, h]
  · intro p v h; simp [applyUpdate, h]
  · intro p h; simp [applyUpdate, h]
  · intro p v h; simp [applyUpdate, h]
  · intro p k v h1 h2
    have hk1 : ("title" == k) = false := beq_eq_false_iff_ne.mpr (Ne.symm h1)
    have hk2 : ("content" == k) = false := beq_eq_false_iff_ne.mpr (Ne.symm h2)
    simp [applyUpdate, List.lookup, hk1, hk2]

/-- C5 witness: updating the title of post 2 in the seeded collection changes
only that field of that post. -/
theorem update_partial_field_law_witness :
    step POSTS (.update 2 [("title", "new")])
      = ([{ id := 1, title := "First post", content := "This is the first post." },
          { id := 2, title := "new", content := "This is the second post." }],
         .postOk { id := 2, title := "new", content := "This is the second post." } 200) := by
  have h := (update_partial_field_law POSTS 2 [("title", "new")]).2.1
    [{ id := 1, title := "First post", content := "This is the first post." }]
    { id := 2, title := "Second post", content := "This is the second post." }
    [] rfl (by decide) rfl
  simpa using h

/-- C6: delete semantics — deleting a present id removes exactly that post
(size shrinks by one, all other posts unchanged in order) and returns a
confirmation naming the id; deleting an absent id, in particular the same id
again under the id-uniqueness invariant, returns a 404 naming the id and
leaves the collection unchanged. -/
theorem delete_semantics (posts : List Post) (pid : Int) :
    ((∀ q ∈ posts, q.id ≠ pid) →
      step posts (.delete pid) = (posts, .err (notFoundMsg pid) 404)) ∧
    (∀ pre p suf, posts = pre ++ p :: suf →
      (∀ q ∈ pre, q.id ≠ pid) → p.id = pid →
      step posts (.delete pid)
        = (pre ++ suf,
           .msg ("Post with id " ++ toString pid ++ " has been deleted successfully.") 200) ∧
      posts.length = (pre ++ suf).length + 1) ∧
    ((posts.map Post.id).Nodup →
      ∀ pre p suf, posts = pre ++ p :: suf → p.id = pid →
        step (pre ++ suf) (.delete pid) = (pre ++ suf, .err (notFoundMsg pid) 404)) := by
  refine ⟨?_, ?_, ?_⟩
  · exact handle_delete_not_found posts pid
  · rintro pre p suf rfl hpre hp
    exact ⟨handle_delete_found pid pre p suf hpre hp,
      by simp only [List.length_append, List.length_cons]; omega⟩
  · rintro hnd pre p suf rfl hp
    apply handle_delete_not_found
    rw [List.map_append, List.map_cons] at hnd
    rcases List.nodup_append.mp hnd with ⟨h1, h2, h3⟩
    intro q hq he
    rcases List.mem_append.mp hq with hq1 | hq2
    · exact h3 (List.mem_map_of_mem _ hq1)
        (by rw [he, ← hp]; exact List.mem_cons_self _ _)
    · have hnotin : p.id ∉ suf.map Post.id := (List.nodup_cons.mp h2).1
      exact hnotin (by rw [hp, ← he]; exact List.mem_map_of_mem _ hq2)

/-- C6 witness: deleting post 2 from the seeded collection removes exactly
that post. -/
theorem delete_semantics_witness :
    step POSTS (.delete 2)
      = ([{ id := 1, title := "First post", content := "This is the first post." }],
         .msg "Post with id 2 has been deleted successfully." 200) := by
  have h := ((delete_semantics POSTS 2).2.1
    [{ id := 1, title := "First post", content := "This is the first post." }]
    { id := 2, title := "Second post", content := "This is the second post." }
    [] rfl (by decide) rfl).1
  simpa using h

/-- The match condition characterized as a case-insensitive substring test. -/
theorem matches_search_iff (t c : Option String) (p : Post) :
    matches_search t c p = true ↔
      ((∃ s, t = some s ∧
          ∃ a b, (strLower p.title).data = a ++ (strLower s).data ++ b) ∨
       (∃ s, c = some s ∧
          ∃ a b, (strLower p.content).data = a ++ (strLower s).data ++ b)) := by
  unfold matches_search
  rw [Bool.or_eq_true]
  apply or_congr
  · cases t with
    | none => simp
    | some s => simp [strContains_iff]
  · cases c with
    | none => simp
    | some s => simp [strContains_iff]

/-- C7: search semantics — the collection is never mutated, the operation
always succeeds with status 200, and the result is the subsequence (in
insertion order) of exactly those posts for which a given `title` filter is a
case-insensitive substring of the title, or a given `content` filter is a
case-insensitive substring of the content; with neither filter the result is
empty. -/
theorem search_semantics (posts : List Post) (t c : Option String) :
    (step posts (.search t c)).1 = posts ∧
    ∃ res, (step posts (.search t c)).2 = .postsOk res 200 ∧
      res.Sublist posts ∧
      (∀ p : Post, p ∈ res ↔ p ∈ posts ∧
        ((∃ s, t = some s ∧
            ∃ a b, (strLower p.title).data = a ++ (strLower s).data ++ b) ∨
         (∃ s, c = some s ∧
            ∃ a b, (strLower p.content).data = a ++ (strLower s).data ++ b))) ∧
      (t = none → c = none → res = []) := by
  refine ⟨rfl, search_posts posts t c, rfl, List.filter_sublist _, ?_, ?_⟩
  · intro p
    rw [show (p ∈ search_posts posts t c ↔ p ∈ posts ∧ matches_search t c p = true)
          from List.mem_filter]
    exact and_congr_right fun _ => matches_search_iff t c p
  · rintro rfl rfl
    unfold search_posts
    simp [matches_search]

/-- C7 witness: no filters on the seeded collection gives the empty result. -/
theorem search_semantics_witness :
    ∃ res, (step POSTS (.search none none)).2 = .postsOk res 200 ∧ res = [] := by
  rcases search_semantics POSTS none none with ⟨-, res, h1, -, -, h2⟩
  exact ⟨res, h1, h2 rfl rfl⟩

theorem sortLE_false (f : String) (a b : Post) :
    sortLE f false a b = decide (getPostField a f ≤ getPostField b f) := rfl

theorem sortLE_true (f : String) (a b : Post) :
    sortLE f true a b = decide (getPostField b f ≤ getPostField a f) := rfl

theorem sortLE_trans (f : String) (d : Bool) :
    ∀ a b c : Post, sortLE f d a b → sortLE f d b c → sortLE f d a c := by
  intro a b c hab hbc
  cases d
  · rw [sortLE_false] at hab hbc ⊢
    exact decide_eq_true (le_trans (of_decide_eq_true hab) (of_decide_eq_true hbc))
  · rw [sortLE_true] at hab hbc ⊢
    exact decide_eq_true (le_trans (of_decide_eq_true hbc) (of_decide_eq_true hab))

theorem sortLE_total (f : String) (d : Bool) :
    ∀ a b : Post, sortLE f d a b || sortLE f d b a := by
  intro a b
  cases d
  · rw [Bool.or_eq_true, sortLE_false, sortLE_false,
      decide_eq_true_eq, decide_eq_true_eq]
    exact le_total _ _
  · rw [Bool.or_eq_true, sortLE_true, sortLE_true,
      decide_eq_true_eq, decide_eq_true_eq]
    exact le_total _ _

/-- The GET handler with a valid sort field and direction reaches the
sorting branch. -/
theorem handle_posts_get_sorts (posts : List Post) (sf : String) (dir : Option String)
    (hsf : sf = "title" ∨ sf = "content")
    (hdir : dir = none ∨ dir = some "asc" ∨ dir = some "desc") :
    step posts (.list (some sf) dir)
      = (posts,
         .postsOk (posts.mergeSort (sortLE sf (dir.getD "" == "desc"))) 200) := by
  rcases hsf with rfl | rfl <;> rcases hdir with rfl | rfl | rfl <;> rfl

/-- C8: list sort correctness without mutation — for a valid sort field and
direction, the response is a permutation of the collection ordered by that
field (lexicographically ascending, or descending for `desc`), and the
stored collection is unchanged. -/
theorem list_sort_correct (posts : List Post) (sf : String) (dir : Option String)
    (hsf : sf = "title" ∨ sf = "content")
    (hdir : dir = none ∨ dir = some "asc" ∨ dir = some "desc") :
    ∃ res, step posts (.list (some sf) dir) = (posts, .postsOk res 200) ∧
      res.Perm posts ∧
      (dir ≠ some "desc" →
        res.Pairwise (fun a b => getPostField a sf ≤ getPostField b sf)) ∧
      (dir = some "desc" →
        res.Pairwise (fun a b => getPostField b sf ≤ getPostField a sf)) := by
  refine ⟨posts.mergeSort (sortLE sf (dir.getD "" == "desc")),
    handle_posts_get_sorts posts sf dir hsf hdir, List.mergeSort_perm posts _, ?_, ?_⟩
  · intro h
    have hd : (dir.getD "" == "desc") = false := by
      rcases hdir with rfl | rfl | rfl
      · rfl
      · rfl
      · exact absurd rfl h
    rw [hd]
    have hs := List.sorted_mergeSort (sortLE_trans sf false) (sortLE_total sf false) posts
    exact hs.imp fun hab => by
      simpa only [sortLE_false, decide_eq_true_eq] using hab
  · intro h
    subst h
    have hd : ((some "desc" : Option String).getD "" == "desc") = true := rfl
    rw [hd]
    have hs := List.sorted_mergeSort (sortLE_trans sf true) (sortLE_total sf true) posts
    exact hs.imp fun hab => by
      simpa only [sortLE_true, decide_eq_true_eq] using hab

/-- C8 witness: sorting the seeded collection by title descending. -/
theorem list_sort_correct_witness :
    ∃ res, step POSTS (.list (some "title") (some "desc")) = (POSTS, .postsOk res 200) ∧
      res.Perm POSTS ∧
      (some "desc" ≠ some "desc" →
        res.Pairwise (fun a b => getPostField a "title" ≤ getPostField b "title")) ∧
      (some "desc" = some "desc" →
        res.Pairwise (fun a b => getPostField b "title" ≤ getPostField a "title")) :=
  list_sort_correct POSTS "title" (some "desc") (Or.inl rfl) (Or.inr (Or.inr rfl))

/-- C9 counterexample: the empty-string `sort` value is given and is not one
of the two allowed field names, yet the list operation succeeds instead of
failing validation — Python truthiness skips the guard for `""`. -/
theorem list_validation_counterexample :
    ("" : String) ≠ "title" ∧ ("" : String) ≠ "content" ∧
    step POSTS (.list (some "") none) = (POSTS, .postsOk POSTS 200) :=
  ⟨by decide, by decide, rfl⟩

/-- C9 (amended): a nonempty `sort` value outside {title, content} fails
validation, a nonempty `direction` value outside {asc, desc} fails
validation (when `sort` passes its guard), and a valid `direction` alone —
with `sort` absent or empty — succeeds with no sorting effect; an
empty-string `sort` or `direction` is treated as absent: an empty `sort`
keeps the success conjunct below, and an empty `direction` makes the whole
list operation behave exactly as with no `direction` at all, for every
`sort` value. -/
theorem list_param_validation (posts : List Post) (sf dir : Option String) :
    (∀ s, sf = some s → s ≠ "" → s ≠ "title" → s ≠ "content" →
      step posts (.list sf dir)
        = (posts, .err "Invalid sort field. Must be \x27title\x27 or \x27content\x27." 400)) ∧
    (∀ d, dir = some d → d ≠ "" → d ≠ "asc" → d ≠ "desc" →
      (sf = none ∨ sf = some "" ∨ sf = some "title" ∨ sf = some "content") →
      step posts (.list sf dir)
        = (posts, .err "Invalid sort direction. Must be \x27asc\x27 or \x27desc\x27." 400)) ∧
    ((sf = none ∨ sf = some "") →
      (dir = none ∨ dir = some "" ∨ dir = some "asc" ∨ dir = some "desc") →
      step posts (.list sf dir) = (posts, .postsOk posts 200)) ∧
    (dir = some "" → step posts (.list sf dir) = step posts (.list sf none)) := by
  refine ⟨?_, ?_, ?_, ?_⟩
  · rintro s rfl h1 h2 h3
    have e0 : (s == "") = false := beq_eq_false_iff_ne.mpr h1
    have e1 : (s == "title") = false := beq_eq_false_iff_ne.mpr h2
    have e2 : (s == "content") = false := beq_eq_false_iff_ne.mpr h3
    show handle_posts_get posts (some s) dir = _
    unfold handle_posts_get
    simp [truthy, e0, e1, e2]
  · rintro d rfl h1 h2 h3 hsf
    have e0 : (d == "") = false := beq_eq_false_iff_ne.mpr h1
    have e1 : (d == "asc") = false := beq_eq_false_iff_ne.mpr h2
    have e2 : (d == "desc") = false := beq_eq_false_iff_ne.mpr h3
    rcases hsf with rfl | rfl | rfl | rfl <;>
      · show handle_posts_get posts _ (some d) = _
        unfold handle_posts_get
        simp [truthy, e0, e1, e2]
  · rintro (rfl | rfl) (rfl | rfl | rfl | rfl) <;> rfl
  · rintro rfl
    rfl

/-- C9 witness: an unknown nonempty sort value is rejected with 400. -/
theorem list_param_validation_witness :
    step POSTS (.list (some "bogus") none)
      = (POSTS, .err "Invalid sort field. Must be \x27title\x27 or \x27content\x27." 400) :=
  (list_param_validation POSTS (some "bogus") none).1 "bogus" rfl
    (by decide) (by decide) (by decide)

theorem search_posts_empty_title_filter (posts : List Post) :
    search_posts posts (some "") none = posts := by
  apply List.filter_eq_self.mpr
  intro p _
  show matches_search (some "") none p = true
  unfold matches_search
  rw [Bool.or_eq_true]
  left
  show strContains (strLower p.title) (strLower "") = true
  unfold strContains
  rw [show (strLower "").data = [] from rfl]
  exact charsContain_nil _

theorem search_posts_empty_content_filter (posts : List Post) :
    search_posts posts none (some "") = posts := by
  apply List.filter_eq_self.mpr
  intro p _
  show matches_search none (some "") p = true
  unfold matches_search
  rw [Bool.or_eq_true]
  right
  show strContains (strLower p.content) (strLower "") = true
  unfold strContains
  rw [show (strLower "").data = [] from rfl]
  exact charsContain_nil _

/-- C10: an empty-string `title` (or `content`) filter matches every post —
the empty string is a substring of everything — while calling search with no
filters at all returns the empty list. -/
theorem empty_filter_matches_all (posts : List Post) :
    step posts (.search (some "") none) = (posts, .postsOk posts 200) ∧
    step posts (.search none (some "")) = (posts, .postsOk posts 200) ∧
    step posts (.search none none) = (posts, .postsOk [] 200) := by
  refine ⟨?_, ?_, ?_⟩
  · show (posts, Response.postsOk (search_posts posts (some "") none) 200) = _
    rw [search_posts_empty_title_filter]
  · show (posts, Response.postsOk (search_posts posts none (some "")) 200) = _
    rw [search_posts_empty_content_filter]
  · show (posts, Response.postsOk (search_posts posts none none) 200) = _
    unfold search_posts
    simp [matches_search]

end Blog
